import Mathlib

/-!
# Offer and pricing resolver (`express/scripts/utils/pricing.js`)

A shallow embedding of `buildUrl`, `getCountry`, `getCurrency`, `formatPrice`
and `getOffer`, followed by the properties established about them.

JavaScript values are modelled as follows.
* A string is a `String`; a value that is a string, `null` or `undefined`
  is an `Option String`, and it is truthy when it is a non-empty string.
* A function that can throw returns an `Option`: `none` is the exception.
* The browser services the module calls (the URL parser, the hostname
  setter, `Intl.NumberFormat`) and the helpers it imports from
  `scripts.js` (`getLocale`, `getLanguage`, `getCookie`, `getHelixEnv`) are
  inputs, gathered in `Browser` and `Page`.
-/

namespace Pricing

/-! ## JavaScript strings -/

/-- JavaScript truthiness of a value that is a string, `null` or `undefined`. -/
def truthy : Option String → Bool
  | none => false
  | some s => s != ""

/-- The prefix test on character lists behind `includes` and `replace`. -/
def startsWithL : List Char → List Char → Bool
  | _, [] => true
  | [], _ :: _ => false
  | c :: cs, p :: ps => c == p && startsWithL cs ps

/-- Substring test on character lists. -/
def includesL : List Char → List Char → Bool
  | [], pat => startsWithL [] pat
  | c :: cs, pat => startsWithL (c :: cs) pat || includesL cs pat

/-- The method `String.prototype.includes`. -/
def includes (s pat : String) : Bool := includesL s.toList pat.toList

/-- The method `String.prototype.endsWith`. -/
def endsWith (s suf : String) : Bool := startsWithL s.toList.reverse suf.toList.reverse

/-- The expression `s.split(sep)[0]`: the part of `s` before the first `sep`. -/
def splitFirst (s : String) (sep : Char) : String :=
  String.mk (s.toList.takeWhile (fun c => c != sep))

/-- Expansion of the replacement text of `String.prototype.replace` for a
string pattern (no capture groups): `$$` is a dollar sign, `$&` the match,
`$` followed by a backtick the text before the match, `$` followed by an
apostrophe the text after it; every other character stands for itself. -/
def getSubstitution (before matched after : List Char) : List Char → List Char
  | [] => []
  | [c] => [c]
  | c :: d :: rest =>
    if c == '$' then
      if d == '$' then '$' :: getSubstitution before matched after rest
      else if d == '&' then matched ++ getSubstitution before matched after rest
      else if d == Char.ofNat 96 then before ++ getSubstitution before matched after rest
      else if d == Char.ofNat 39 then after ++ getSubstitution before matched after rest
      else c :: getSubstitution before matched after (d :: rest)
    else c :: getSubstitution before matched after (d :: rest)

/-- Replacement of the first occurrence of `pat` in the character list;
`acc` is the text already passed, in reverse. -/
def replaceL (pat repl : List Char) : List Char → List Char → List Char
  | acc, [] =>
    if pat.isEmpty then acc.reverse ++ getSubstitution acc.reverse [] [] repl else acc.reverse
  | acc, c :: cs =>
    if startsWithL (c :: cs) pat then
      acc.reverse ++ getSubstitution acc.reverse pat ((c :: cs).drop pat.length) repl
        ++ (c :: cs).drop pat.length
    else replaceL pat repl (c :: acc) cs

/-- The method `String.prototype.replace` with a string pattern: only the
first occurrence is replaced. -/
def replace (s pat repl : String) : String :=
  String.mk (replaceL pat.toList repl.toList [] s.toList)

/-- The method `toUpperCase` on ASCII text. The only strings `getOffer`
upper-cases are keys of the currency table or names of `Object.prototype`
properties, all ASCII, where it agrees with JavaScript. -/
def toUpperCase (s : String) : String := String.mk (s.toList.map Char.toUpper)

/-! ## URLSearchParams -/

/-- The list of name-value pairs of a `URLSearchParams` object. -/
abbrev Params := List (String × String)

/-- The method `URLSearchParams.get`: the first value of `name`, or `null`. -/
def Params.get (ps : Params) (name : String) : Option String :=
  (ps.find? (fun kv => kv.1 == name)).map Prod.snd

/-- The method `URLSearchParams.has`. -/
def Params.has (ps : Params) (name : String) : Bool :=
  ps.any (fun kv => kv.1 == name)

/-- The method `URLSearchParams.set`: the first pair named `name` takes the
value, the other pairs of that name are removed; without such a pair the new
pair is appended. -/
def Params.set : Params → String → String → Params
  | [], name, value => [(name, value)]
  | kv :: rest, name, value =>
    if kv.1 == name then (name, value) :: rest.filter (fun e => e.1 != name)
    else kv :: Params.set rest name value

/-! ## The page and the helpers of `scripts.js` -/

/-- The environment descriptor returned by `getHelixEnv`. -/
structure HelixEnv where
  commerce : Option String
  spark : Option String
deriving DecidableEq, Repr

/-- What the module reads from the page: the decoded query of
`window.location`, and the results of the helpers imported from
`scripts.js`, which are not part of the module. -/
structure Page where
  /-- The query parameters of `window.location.href`. -/
  searchParams : Params
  /-- The helper `getCookie`. -/
  getCookie : String → Option String
  /-- The value of `getLocale(window.location)`. -/
  getLocale : String
  /-- The helper `getLanguage`. -/
  getLanguage : String → String
  /-- The value of `getHelixEnv()`; `none` when it is `undefined`. -/
  getHelixEnv : Option HelixEnv

/-! ## `getCountry` -/

/-- Lines 97-103 of `getCountry`: the token of the first source that has a
truthy one, in the order query parameter, cookie, browser locale. -/
def rawCountry (pg : Page) : String :=
  let country := pg.searchParams.get "country"
  let country := if !truthy country then pg.getCookie "international" else country
  match country with
  | some c => if c != "" then c else pg.getLocale
  | none => pg.getLocale

/-- Lines 104-105 of `getCountry`: `uk` becomes `gb`, then the part before
the first underscore is kept. -/
def normalizeCountry (country : String) : String :=
  let country := if country == "uk" then "gb" else country
  splitFirst country '_'

/-- The function `getCountry`. -/
def getCountry (pg : Page) : String := normalizeCountry (rawCountry pg)

/-! ## `getCurrency` -/

/-- The object literal `currencies`, in source order. -/
def currencies : List (String × String) :=
  [("ar", "ARS"), ("at", "EUR"), ("au", "AUD"), ("be", "EUR"), ("bg", "EUR"),
   ("br", "BRL"), ("ca", "CAD"), ("ch", "CHF"), ("cl", "CLP"), ("co", "COP"),
   ("cr", "USD"), ("cy", "EUR"), ("cz", "EUR"), ("de", "EUR"), ("dk", "DKK"),
   ("ec", "USD"), ("ee", "EUR"), ("es", "EUR"), ("fi", "EUR"), ("fr", "EUR"),
   ("gb", "GBP"), ("gr", "EUR"), ("gt", "USD"), ("hk", "HKD"), ("hu", "EUR"),
   ("id", "IDR"), ("ie", "EUR"), ("il", "ILS"), ("in", "INR"), ("it", "EUR"),
   ("jp", "JPY"), ("kr", "KRW"), ("lt", "EUR"), ("lu", "EUR"), ("lv", "EUR"),
   ("mt", "EUR"), ("mx", "MXN"), ("my", "MYR"), ("nl", "EUR"), ("no", "NOK"),
   ("nz", "AUD"), ("pe", "PEN"), ("ph", "PHP"), ("pl", "EUR"), ("pt", "EUR"),
   ("ro", "EUR"), ("ru", "RUB"), ("se", "SEK"), ("sg", "SGD"), ("si", "EUR"),
   ("sk", "EUR"), ("th", "THB"), ("tw", "TWD"), ("us", "USD"), ("ve", "USD"),
   ("za", "USD"), ("ae", "USD"), ("bh", "BHD"), ("eg", "EGP"), ("jo", "JOD"),
   ("kw", "KWD"), ("om", "OMR"), ("qa", "USD"), ("sa", "SAR"), ("ua", "USD"),
   ("dz", "USD"), ("lb", "LBP"), ("ma", "USD"), ("tn", "USD"), ("ye", "USD"),
   ("am", "USD"), ("az", "USD"), ("ge", "USD"), ("md", "USD"), ("tm", "USD"),
   ("by", "USD"), ("kz", "USD"), ("kg", "USD"), ("tj", "USD"), ("uz", "USD"),
   ("bo", "USD"), ("do", "USD"), ("hr", "EUR"), ("ke", "USD"), ("lk", "USD"),
   ("mo", "HKD"), ("mu", "USD"), ("ng", "USD"), ("pa", "USD"), ("py", "USD"),
   ("sv", "USD"), ("tt", "USD"), ("uy", "USD"), ("vn", "USD")]

/-- The names of the properties every object literal inherits from
`Object.prototype`. The values are functions, and for `__proto__` the
prototype object itself: none is a string and all are truthy. -/
def objectPrototypeKeys : List String :=
  ["constructor", "hasOwnProperty", "isPrototypeOf", "propertyIsEnumerable",
   "toLocaleString", "toString", "valueOf", "__proto__", "__defineGetter__",
   "__defineSetter__", "__lookupGetter__", "__lookupSetter__"]

/-- The value of a property read `currencies[loc]`, which is also the type
of the `currency` argument of `formatPrice`. -/
inductive CurrencyValue where
  /-- The value `undefined`: no such property. -/
  | undefined
  /-- A string. -/
  | code (s : String)
  /-- The non-string value of the property `name` inherited from
  `Object.prototype`. -/
  | inherited (name : String)
deriving DecidableEq, Repr

/-- JavaScript truthiness of a `CurrencyValue`. -/
def CurrencyValue.truthy : CurrencyValue → Bool
  | .undefined => false
  | .code s => s != ""
  | .inherited _ => true

/-- The property read `obj[key]` on the object literal `currencies`: an own
property first, then the prototype chain. -/
def lookupProperty (table : List (String × String)) (key : String) : CurrencyValue :=
  match table.find? (fun kv => kv.1 == key) with
  | some kv => .code kv.2
  | none => if objectPrototypeKeys.contains key then .inherited key else .undefined

/-- A currency code of exactly three upper-case letters. -/
def isCurrencyCode (c : String) : Bool :=
  c.toList.length == 3 && c.toList.all Char.isUpper

/-- The function `getCurrency`. -/
def getCurrency (pg : Page) (locale : Option String) : CurrencyValue :=
  let loc := match locale with
    | some l => if l != "" then l else getCountry pg
    | none => getCountry pg
  lookupProperty currencies loc

/-! ## URL records -/

/-- The UTF-8 bytes of a character. -/
def utf8Bytes (c : Char) : List Nat :=
  let n := c.toNat
  if n < 0x80 then [n]
  else if n < 0x800 then [0xC0 + n / 64, 0x80 + n % 64]
  else if n < 0x10000 then [0xE0 + n / 4096, 0x80 + n / 64 % 64, 0x80 + n % 64]
  else [0xF0 + n / 262144, 0x80 + n / 4096 % 64, 0x80 + n / 64 % 64, 0x80 + n % 64]

/-- An upper-case hexadecimal digit. -/
def hexDigit (d : Nat) : Char := "0123456789ABCDEF".toList.getD d '0'

/-- One byte under the `application/x-www-form-urlencoded` serializer:
letters, digits and `*-._` stay, a space is `+`, the rest is `%XX`. -/
def urlencodeByte (b : Nat) : List Char :=
  let c := Char.ofNat b
  if b < 0x80 && (c.isAlphanum || c == '*' || c == '-' || c == '.' || c == '_') then [c]
  else if b == 0x20 then ['+']
  else ['%', hexDigit (b / 16), hexDigit (b % 16)]

/-- A name or value under the form-urlencoded serializer. -/
def urlencode (s : String) : List Char :=
  ((s.toList.map utf8Bytes).flatten.map urlencodeByte).flatten

/-- The method `URLSearchParams.toString`. -/
def serializeParams (ps : Params) : String :=
  String.mk (List.intercalate ['&'] (ps.map (fun kv => urlencode kv.1 ++ '=' :: urlencode kv.2)))

/-- A URL record together with the list of its `searchParams` object.
`host` is `none` for a null host, `port` is the serialized port, `none` for
the default port of the scheme, `path` is the serialized path. -/
structure URL where
  scheme : String
  username : String
  password : String
  host : Option String
  port : Option String
  path : String
  query : Option String
  fragment : Option String
  searchParams : Params
deriving DecidableEq, Repr

/-- The getter `hostname`. -/
def URL.hostname (u : URL) : String := u.host.getD ""

/-- The getter `host`: the hostname, with the port when there is one. -/
def URL.hostPort (u : URL) : String :=
  match u.host, u.port with
  | none, _ => ""
  | some h, none => h
  | some h, some p => h ++ ":" ++ p

/-- The getter `href`, which is also `toString()`: the URL serializer. -/
def URL.href (u : URL) : String :=
  let authority := match u.host with
    | none => if startsWithL u.path.toList ['/', '/'] then "/." else ""
    | some h =>
      let credentials :=
        if u.username != "" || u.password != "" then
          u.username ++ (if u.password != "" then ":" ++ u.password else "") ++ "@"
        else ""
      "//" ++ credentials ++ h ++ (match u.port with | none => "" | some p => ":" ++ p)
  u.scheme ++ ":" ++ authority ++ u.path
    ++ (match u.query with | none => "" | some q => "?" ++ q)
    ++ (match u.fragment with | none => "" | some f => "#" ++ f)

/-- The call `url.searchParams.set(name, value)`: the list is updated and
the query of the URL becomes the serialization of the list. -/
def URL.setParam (u : URL) (name value : String) : URL :=
  let ps := u.searchParams.set name value
  { u with searchParams := ps, query := some (serializeParams ps) }

/-- The services of the browser that the module calls. -/
structure Browser where
  /-- The constructor `new URL(s)`; `none` when it throws a `TypeError`. -/
  parseURL : String → Option URL
  /-- The host the hostname setter stores for a value, `none` when the
  setter leaves the URL as it is. The setter changes no other component. -/
  parseHost : URL → String → Option String
  /-- The text of `new Intl.NumberFormat(locale, { style: 'currency',
  currency, currencyDisplay }).format(price)` for a well-formed currency
  code, in the order locale, currency, currencyDisplay, price. The locale
  is a language tag supplied by the helper `getLanguage`, for which the
  call does not throw. -/
  numberFormat : String → String → String → String → String

/-- The assignment `url.hostname = value`. -/
def URL.setHostname (B : Browser) (u : URL) (value : String) : URL :=
  match B.parseHost u value with
  | some h => { u with host := some h }
  | none => u

/-! ## `buildUrl` -/

/-- The function `replaceUrlParam`. After `params.set`, the assignment
`url.search = params.toString()` stores the serialization that `set` has
already stored and parses it back into the list it came from, so it changes
nothing. -/
def replaceUrlParam (url : URL) (paramName paramValue : String) : URL :=
  url.setParam paramName paramValue

/-- The values of the variable `rUrl` of `buildUrl`: `null`, a string, and
from line 61 on a URL object. -/
inductive RUrl where
  | null
  | str (s : String)
  | url (u : URL)
deriving DecidableEq, Repr

/-- The result of `searchParams.get` as a value of `rUrl`. -/
def RUrl.ofOption : Option String → RUrl
  | none => .null
  | some s => .str s

/-- JavaScript truthiness of `rUrl`. -/
def RUrl.truthy : RUrl → Bool
  | .null => false
  | .str s => s != ""
  | .url _ => true

/-- The call `rUrl.toString()`, made only on a truthy `rUrl`. -/
def RUrl.toString : RUrl → String
  | .null => "null"
  | .str s => s
  | .url u => u.href

/-- The statement `if (rUrl) rUrl = rUrl.replace(pat, repl)`. -/
def RUrl.replaceIfTruthy (r : RUrl) (pat repl : String) : RUrl :=
  match r with
  | .str s => if s != "" then .str (replace s pat repl) else r
  | _ => r

/-- Lines 36-50 of `buildUrl`: the `host` parameter of the page. -/
def applyHostParam (B : Browser) (pg : Page) (planUrl : URL) (rUrl : RUrl) :
    Option (URL × RUrl) :=
  if pg.searchParams.has "host" then
    let hostParam := (pg.searchParams.get "host").getD "null"
    match B.parseURL hostParam with
    | none => none
    | some parsed =>
      let host := parsed.hostPort
      if host == "express.adobe.com" then
        some ({ planUrl with host := some "commerce.adobe.com" },
          rUrl.replaceIfTruthy "express.adobe.com" hostParam)
      else if host == "qa.adobeprojectm.com" then
        some ({ planUrl with host := some "commerce.adobe.com" },
          rUrl.replaceIfTruthy "express.adobe.com" hostParam)
      else if endsWith host ".adobeprojectm.com" then
        some ({ planUrl with host := some "commerce-stg.adobe.com" },
          (rUrl.replaceIfTruthy "adminconsole.adobe.com" "stage.adminconsole.adobe.com").replaceIfTruthy
            "express.adobe.com" hostParam)
      else some (planUrl, rUrl)
  else some (planUrl, rUrl)

/-- Line 53 of `buildUrl`: the commerce hostname of the environment
descriptor `env`. -/
def applyEnvCommerce (B : Browser) (env : Option HelixEnv) (planUrl : URL) : URL :=
  match env with
  | some e =>
    match e.commerce with
    | some c =>
      if c != "" && includes planUrl.hostname "commerce" then planUrl.setHostname B c
      else planUrl
    | none => planUrl
  | none => planUrl

/-- Lines 54-58 of `buildUrl`: the spark hostname of the environment
descriptor `env`; `none` when `new URL(rUrl)` throws. -/
def applyEnvSpark (B : Browser) (env : Option HelixEnv) (rUrl : RUrl) : Option RUrl :=
  match env with
  | some e =>
    match e.spark with
    | some sp =>
      if sp != "" && rUrl.truthy then
        match B.parseURL rUrl.toString with
        | none => none
        | some url => some (.str (url.setHostname B sp).href)
      else some rUrl
    | none => some rUrl
  | none => some rUrl

/-- Lines 52-58 of `buildUrl`: the hostnames of the environment descriptor. -/
def applyHelixEnv (B : Browser) (pg : Page) (planUrl : URL) (rUrl : RUrl) :
    Option (URL × RUrl) :=
  let env := pg.getHelixEnv
  let planUrl := applyEnvCommerce B env planUrl
  match applyEnvSpark B env rUrl with
  | none => none
  | some rUrl => some (planUrl, rUrl)

/-- One of the three statements of lines 63-71: a tracking parameter of the
page is copied into the redirect target. -/
def copyTrackingParam (pg : Page) (rUrl : URL) (name : String) : URL :=
  if pg.searchParams.has name then
    replaceUrlParam rUrl name ((pg.searchParams.get name).getD "null")
  else rUrl

/-- Lines 60-72 of `buildUrl`: a truthy `rUrl` becomes a URL object and
takes the tracking parameters of the page. -/
def applyTracking (B : Browser) (pg : Page) (rUrl : RUrl) : Option RUrl :=
  if rUrl.truthy then
    match B.parseURL rUrl.toString with
    | none => none
    | some u =>
      let u := copyTrackingParam pg u "touchpointName"
      let u := copyTrackingParam pg u "destinationUrl"
      let u := copyTrackingParam pg u "srcUrl"
      some (.url u)
  else some rUrl

/-- Lines 74-82 of `buildUrl`: the `code` of the page is copied into the
plan URL, the `rUrl` of the page replaces the redirect target, and a truthy
redirect target becomes the `rUrl` parameter of the plan URL. -/
def applyPageOverrides (pg : Page) (planUrl : URL) (rUrl : RUrl) : URL :=
  let planUrl :=
    if pg.searchParams.has "code" then
      planUrl.setParam "code" ((pg.searchParams.get "code").getD "null")
    else planUrl
  let rUrl :=
    if truthy (pg.searchParams.get "rUrl") then RUrl.ofOption (pg.searchParams.get "rUrl")
    else rUrl
  if rUrl.truthy then planUrl.setParam "rUrl" rUrl.toString else planUrl

/-- The URL object `planUrl` at the moment `buildUrl` returns its `href`;
`none` when `buildUrl` throws. The hostname setter with the literals
`commerce.adobe.com` and `commerce-stg.adobe.com` stores the literal: both
are valid hosts, and the URL has a host since its hostname contains
`commerce`. -/
def buildUrlObject (B : Browser) (pg : Page) (optionUrl country language : String) :
    Option URL :=
  match B.parseURL optionUrl with
  | none => none
  | some planUrl =>
    if !includes planUrl.hostname "commerce" then some planUrl
    else
      let planUrl := replaceUrlParam planUrl "co" country
      let planUrl := replaceUrlParam planUrl "lang" language
      let rUrl := RUrl.ofOption (planUrl.searchParams.get "rUrl")
      match applyHostParam B pg planUrl rUrl with
      | none => none
      | some (planUrl, rUrl) =>
        match applyHelixEnv B pg planUrl rUrl with
        | none => none
        | some (planUrl, rUrl) =>
          match applyTracking B pg rUrl with
          | none => none
          | some rUrl => some (applyPageOverrides pg planUrl rUrl)

/-- The function `buildUrl`: the `href` of `planUrl`; `none` when it throws. -/
def buildUrl (B : Browser) (pg : Page) (optionUrl country language : String) :
    Option String :=
  (buildUrlObject B pg optionUrl country language).map URL.href

/-! ## `formatPrice` -/

/-- The function `getCurrencyDisplay`. -/
def getCurrencyDisplay (currency : CurrencyValue) : String :=
  if currency == .code "JPY" then "name"
  else if [CurrencyValue.code "SEK", .code "DKK", .code "NOK"].contains currency then "code"
  else "symbol"

/-- The test `IsWellFormedCurrencyCode` of ECMA-402: three ASCII letters. -/
def isWellFormedCurrencyCode (c : String) : Bool :=
  c.toList.length == 3 && c.toList.all Char.isAlpha

/-- The call of `Intl.NumberFormat` in `formatPrice`; `none` when the
constructor throws. It throws a `RangeError` for a currency that is not a
well-formed code. A `currency` that is not a string is first converted to
one (the source text of a function, `[object Object]`), which is not
well-formed, and with `undefined` the currency is missing: it throws for
both. -/
def intlNumberFormat (B : Browser) (locale : String) (currency : CurrencyValue)
    (currencyDisplay price : String) : Option String :=
  match currency with
  | .code c =>
    if isWellFormedCurrencyCode c then some (B.numberFormat locale c currencyDisplay price)
    else none
  | _ => none

/-- The function `formatPrice`; `none` when it throws. The price is the
text of the JSON number; it is only handed to the formatter. -/
def formatPrice (B : Browser) (pg : Page) (price : String) (currency : CurrencyValue) :
    Option String :=
  let customSymbols := [("SAR", "SR"), ("CA", "CAD")]
  let locale :=
    if [CurrencyValue.code "USD", .code "TWD"].contains currency then "en-GB"
    else pg.getLanguage (getCountry pg)
  let currencyDisplay := getCurrencyDisplay currency
  match intlNumberFormat B locale currency currencyDisplay price with
  | none => none
  | some formattedPrice =>
    some (customSymbols.foldl (fun acc sr => replace acc sr.1 sr.2) formattedPrice)

/-! ## `getOffer` -/

/-- A record of the offers document: `{ o, c, p, vat, pre, suf }`. -/
structure OfferRecord where
  o : String
  c : String
  p : String
  vat : String
  pre : String
  suf : String
deriving DecidableEq, Repr

/-- The response of `fetch('/express/system/offers-new.json')`: its `ok`
flag and the `data` array of its JSON body. -/
structure Response where
  ok : Bool
  data : List OfferRecord
deriving DecidableEq, Repr

/-- The object `getOffer` resolves to when an offer is selected. The fields
`prefixText` and `suffixText` are the properties `prefix` and `suffix`. -/
structure ResolvedOffer where
  country : String
  currency : CurrencyValue
  unitPrice : String
  unitPriceCurrencyFormatted : String
  commerceURL : String
  lang : String
  vatInfo : String
  prefixText : String
  suffixText : String
deriving DecidableEq, Repr

/-- Lines 232-234 of `getOffer`: the override if it is truthy, else the
detected country, and `us` if that is empty. -/
def chosenCountry (pg : Page) (countryOverride : Option String) : String :=
  let country := getCountry pg
  let country := match countryOverride with
    | some c => if c != "" then c else country
    | none => country
  if country == "" then "us" else country

/-- Lines 232-239 of `getOffer`: the country and the currency. -/
def resolveCountryCurrency (pg : Page) (countryOverride : Option String) :
    String × CurrencyValue :=
  let country := chosenCountry pg countryOverride
  let currency := getCurrency pg (some country)
  if !currency.truthy then ("us", .code "USD") else (country, currency)

/-- Lines 244-245 of `getOffer`: the first record of the offer for the
country, else the first record of the offer for `US`. -/
def selectOffer (data : List OfferRecord) (offerId upperCountry : String) :
    Option OfferRecord :=
  match data.find? (fun e => e.o == offerId && e.c == upperCountry) with
  | some offer => some offer
  | none => data.find? (fun e => e.o == offerId && e.c == "US")

/-- The function `getOffer`. The outer `none` is a rejected promise, the
inner `none` is the empty object. -/
def getOffer (B : Browser) (pg : Page) (resp : Response) (offerId : String)
    (countryOverride : Option String) : Option (Option ResolvedOffer) :=
  let (country, currency) := resolveCountryCurrency pg countryOverride
  if !resp.ok then some none
  else
    let upperCountry := toUpperCase country
    match selectOffer resp.data offerId upperCountry with
    | some offer =>
      let lang := splitFirst (pg.getLanguage pg.getLocale) '-'
      let unitPrice := offer.p
      match formatPrice B pg unitPrice currency with
      | none => none
      | some unitPriceCurrencyFormatted =>
        let commerceURL := "https://commerce.adobe.com/checkout?cli=spark&co=" ++ country
          ++ "&items%5B0%5D%5Bid%5D=" ++ offerId
          ++ "&items%5B0%5D%5Bcs%5D=0&rUrl=https%3A%2F%express.adobe.com%2Fsp%2F&lang=" ++ lang
        some (some {
          country := country
          currency := currency
          unitPrice := unitPrice
          unitPriceCurrencyFormatted := unitPriceCurrencyFormatted
          commerceURL := commerceURL
          lang := lang
          vatInfo := offer.vat
          prefixText := offer.pre
          suffixText := offer.suf })
    | none => some none

/-! ## A reference browser

The URL parser of the URL Standard on the absolute `http` and `https` URLs
of the shape `scheme://host[:port][/path][?query][#fragment]` in printable
ASCII that the parser stores as written, up to the case of scheme and host
and an empty path. On these inputs `parseSimpleURL` is `new URL`. An input
without a scheme is a failure of the parser of the standard as well; every
other input outside this shape is outside the reference browser, which
reports `none` for it. -/

/-- The pieces of a character list between the occurrences of `sep`. -/
def splitOnL (sep : Char) : List Char → List (List Char)
  | [] => [[]]
  | c :: cs =>
    if c == sep then [] :: splitOnL sep cs
    else
      match splitOnL sep cs with
      | [] => [[c]]
      | h :: t => (c :: h) :: t

/-- The value of a hexadecimal digit. -/
def hexValue (c : Char) : Option Nat :=
  if c.isDigit then some (c.toNat - 48)
  else if 97 ≤ c.toNat && c.toNat ≤ 102 then some (c.toNat - 87)
  else if 65 ≤ c.toNat && c.toNat ≤ 70 then some (c.toNat - 55)
  else none

/-- Percent-decoding of a name or value of a query, `+` read as a space;
`none` when a decoded byte is not ASCII. -/
def urldecode : List Char → Option (List Char)
  | [] => some []
  | c :: rest =>
    let plain := (urldecode rest).map (fun t => (if c == '+' then ' ' else c) :: t)
    if c == '%' then
      match rest with
      | a :: b :: rest2 =>
        match hexValue a, hexValue b with
        | some x, some y =>
          if 16 * x + y < 128 then (urldecode rest2).map (fun t => Char.ofNat (16 * x + y) :: t)
          else none
        | _, _ => plain
      | _ => plain
    else plain

/-- One `name=value` piece of a query. -/
def parsePair (piece : List Char) : Option (String × String) :=
  match urldecode (piece.takeWhile (fun c => c != '=')),
    urldecode ((piece.dropWhile (fun c => c != '=')).drop 1) with
  | some n, some v => some (String.mk n, String.mk v)
  | _, _ => none

/-- The `application/x-www-form-urlencoded` parser on an ASCII query. -/
def parseQuery (q : List Char) : Option Params :=
  ((splitOnL '&' q).filter (fun piece => !piece.isEmpty)).mapM parsePair

/-- The characters of a host of the reference browser. -/
def isHostChar (c : Char) : Bool := c.isAlphanum || c == '-' || c == '.'

/-- The characters of a path of the reference browser. -/
def isPathChar (c : Char) : Bool :=
  c.isAlphanum || c == '/' || c == '-' || c == '_' || c == '~' || c == '.'

/-- The characters of a query that the parser stores as written. -/
def isQueryChar (c : Char) : Bool :=
  0x21 ≤ c.toNat && c.toNat ≤ 0x7e && c != Char.ofNat 34 && c != '#' && c != '<'
    && c != '>' && c != Char.ofNat 39

/-- The host of the reference browser: a domain of letters, digits,
hyphens and dots whose last label starts with a letter and that has no
`xn--` label; it is stored in lower case. -/
def parseSimpleHost (h : List Char) : Option String :=
  let lower := h.map Char.toLower
  let lastLabel := (lower.reverse.takeWhile (fun c => c != '.')).reverse
  if h.all isHostChar && (lastLabel.head?.map Char.isAlpha).getD false
      && !includesL lower "xn--".toList then
    some (String.mk lower)
  else none

/-- The port of the reference browser: at most four digits without a
leading zero; the default port of the scheme is dropped. -/
def parseSimplePort (scheme : String) (p : List Char) : Option (Option String) :=
  match p with
  | [] => some none
  | d :: _ =>
    if p.all Char.isDigit && d != '0' && p.length ≤ 4 then
      if (scheme == "http" && p == "80".toList) || (scheme == "https" && p == "443".toList)
      then some none
      else some (some (String.mk p))
    else none

/-- The constructor `new URL` of the reference browser. -/
def parseSimpleURL (input : String) : Option URL :=
  let cs := input.toList
  let schemeL := cs.takeWhile (fun c => c != ':')
  let isEnd := fun c => c == '/' || c == '?' || c == '#'
  match schemeL.head?, cs.dropWhile (fun c => c != ':') with
  | some s0, _ :: '/' :: '/' :: rest =>
    let scheme := String.mk (schemeL.map Char.toLower)
    let authority := rest.takeWhile (fun c => !isEnd c)
    let afterAuthority := rest.dropWhile (fun c => !isEnd c)
    let pathL := afterAuthority.takeWhile (fun c => c != '?' && c != '#')
    let afterPath := afterAuthority.dropWhile (fun c => c != '?' && c != '#')
    let queryL := match afterPath with
      | '?' :: q => some (q.takeWhile (fun c => c != '#'))
      | _ => none
    let fragmentL := match afterPath.dropWhile (fun c => c != '#') with
      | _ :: f => some f
      | [] => none
    if s0.isAlpha && (scheme == "http" || scheme == "https")
        && pathL.all isPathChar && !includesL pathL "/.".toList
        && (queryL.getD []).all isQueryChar
        && (fragmentL.getD []).all Char.isAlphanum then
      match parseSimpleHost (authority.takeWhile (fun c => c != ':')),
        parseSimplePort scheme ((authority.dropWhile (fun c => c != ':')).drop 1),
        parseQuery (queryL.getD []) with
      | some host, some port, some params =>
        some {
          scheme := scheme
          username := ""
          password := ""
          host := some host
          port := port
          path := if pathL.isEmpty then "/" else String.mk pathL
          query := queryL.map String.mk
          fragment := fragmentL.map String.mk
          searchParams := params }
      | _, _, _ => none
    else none
  | _, _ => none

/-- The text `Intl.NumberFormat` prints for a price written with two
decimals, in US dollars for `en-GB` and in euros for `en-US`; for every
other input the currency code and the price stand in for the text. -/
def sampleNumberFormat (locale currency currencyDisplay price : String) : String :=
  if locale == "en-GB" && currency == "USD" && currencyDisplay == "symbol" then "US$" ++ price
  else if locale == "en-US" && currency == "EUR" && currencyDisplay == "symbol" then
    "€" ++ price
  else currency ++ " " ++ price

/-- The reference browser. Its hostname setter takes the hosts that
`parseSimpleHost` takes. -/
def referenceBrowser : Browser where
  parseURL := parseSimpleURL
  parseHost := fun _ value => parseSimpleHost value.toList
  numberFormat := sampleNumberFormat

/-- An offers document with a US record and a French record of the offer
`id`. -/
def sampleOffers : List OfferRecord :=
  [{ o := "id", c := "US", p := "9.99", vat := "excl", pre := "US$", suf := "/mo" },
   { o := "id", c := "FR", p := "8.99", vat := "incl", pre := "", suf := "/mois" }]

/-- An offers document with only a US record of the offer `id`. -/
def usOffers : List OfferRecord :=
  [{ o := "id", c := "US", p := "9.99", vat := "excl", pre := "US$", suf := "/mo" }]

/-- The offer `getOffer('id', 'fr')` resolves to on `sampleOffers`. -/
def frenchOffer : ResolvedOffer where
  country := "fr"
  currency := .code "EUR"
  unitPrice := "8.99"
  unitPriceCurrencyFormatted := "€8.99"
  commerceURL := "https://commerce.adobe.com/checkout?cli=spark&co=fr"
    ++ "&items%5B0%5D%5Bid%5D=id&items%5B0%5D%5Bcs%5D=0"
    ++ "&rUrl=https%3A%2F%express.adobe.com%2Fsp%2F&lang=en"
  lang := "en"
  vatInfo := "incl"
  prefixText := ""
  suffixText := "/mois"

/-- The offer `getOffer('id', 'de')` resolves to on `sampleOffers`, which
have no German record: the price and texts are those of the US record. -/
def germanOffer : ResolvedOffer where
  country := "de"
  currency := .code "EUR"
  unitPrice := "9.99"
  unitPriceCurrencyFormatted := "€9.99"
  commerceURL := "https://commerce.adobe.com/checkout?cli=spark&co=de"
    ++ "&items%5B0%5D%5Bid%5D=id&items%5B0%5D%5Bcs%5D=0"
    ++ "&rUrl=https%3A%2F%express.adobe.com%2Fsp%2F&lang=en"
  lang := "en"
  vatInfo := "excl"
  prefixText := "US$"
  suffixText := "/mo"

/-- The offer `getOffer('id', 'FR')` resolves to on `usOffers`. -/
def fallbackOffer : ResolvedOffer where
  country := "us"
  currency := .code "USD"
  unitPrice := "9.99"
  unitPriceCurrencyFormatted := "US$9.99"
  commerceURL := "https://commerce.adobe.com/checkout?cli=spark&co=us"
    ++ "&items%5B0%5D%5Bid%5D=id&items%5B0%5D%5Bcs%5D=0"
    ++ "&rUrl=https%3A%2F%express.adobe.com%2Fsp%2F&lang=en"
  lang := "en"
  vatInfo := "excl"
  prefixText := "US$"
  suffixText := "/mo"

/-- The URL record of `https://example.com/`. -/
def exampleUrl : URL where
  scheme := "https"
  username := ""
  password := ""
  host := some "example.com"
  port := none
  path := "/"
  query := none
  fragment := none
  searchParams := []

/-- The URL record of `https://express.adobe.com/`. -/
def expressUrl : URL where
  scheme := "https"
  username := ""
  password := ""
  host := some "express.adobe.com"
  port := none
  path := "/"
  query := none
  fragment := none
  searchParams := []

/-- The URL record of `https://commerce-stg.adobe.com/checkout?cli=spark`. -/
def stagePlanUrl : URL where
  scheme := "https"
  username := ""
  password := ""
  host := some "commerce-stg.adobe.com"
  port := none
  path := "/checkout"
  query := some "cli=spark"
  fragment := none
  searchParams := [("cli", "spark")]

/-- The URL record of
`https://commerce.adobe.com/checkout?rUrl=https%3A%2F%2Fexpress.adobe.com%2Fsp%2F`. -/
def redirectPlanUrl : URL where
  scheme := "https"
  username := ""
  password := ""
  host := some "commerce.adobe.com"
  port := none
  path := "/checkout"
  query := some "rUrl=https%3A%2F%2Fexpress.adobe.com%2Fsp%2F"
  fragment := none
  searchParams := [("rUrl", "https://express.adobe.com/sp/")]

/-- The URL record of `https://commerce.adobe.com/?rUrl=`. -/
def emptyRedirectPlanUrl : URL where
  scheme := "https"
  username := ""
  password := ""
  host := some "commerce.adobe.com"
  port := none
  path := "/"
  query := some "rUrl="
  fragment := none
  searchParams := [("rUrl", "")]

/-- A page without query, cookie or environment descriptor, in the locale
`us` with the language `en-US`. -/
def plainPage : Page where
  searchParams := []
  getCookie := fun _ => none
  getLocale := "us"
  getLanguage := fun _ => "en-US"
  getHelixEnv := none

end Pricing



namespace Pricing

/-! ## `getCountry`: normalization and case -/

theorem takeWhile_idem {α : Type} (p : α → Bool) (l : List α) :
    (l.takeWhile p).takeWhile p = l.takeWhile p := by
  induction l with
  | nil => rfl
  | cons a t ih =>
    by_cases h : p a = true
    · simp [List.takeWhile_cons, h, ih]
    · simp [List.takeWhile_cons, h]

theorem splitFirst_idem (s : String) (sep : Char) :
    splitFirst (splitFirst s sep) sep = splitFirst s sep := by
  simp [splitFirst, takeWhile_idem]

theorem normalizeCountry_eq (t : String) :
    normalizeCountry t = splitFirst (if t = "uk" then "gb" else t) '_' := by
  simp [normalizeCountry]

theorem mem_splitFirst {s : String} {sep c : Char} (h : c ∈ (splitFirst s sep).toList) :
    c ∈ s.toList := by
  simp only [splitFirst, String.toList] at h
  exact (List.takeWhile_sublist _).subset h

/-- C8, as stated, fails: the token `uk_UA` is normalized to `uk`, and
normalizing `uk` again gives `gb`; with `country=uk_UA` in the query of the
page `getCountry` returns `uk`. -/
theorem normalizeCountry_not_idempotent :
    normalizeCountry "uk_UA" = "uk"
      ∧ normalizeCountry (normalizeCountry "uk_UA") = "gb"
      ∧ normalizeCountry (normalizeCountry "uk_UA") ≠ normalizeCountry "uk_UA"
      ∧ getCountry { plainPage with searchParams := [("country", "uk_UA")] } = "uk" := by
  decide

theorem dropWhile_head_false {α : Type} (p : α → Bool) (l : List α) (c : α) (rest : List α)
    (h : l.dropWhile p = c :: rest) : p c = false := by
  induction l with
  | nil => simp at h
  | cons a t ih =>
    by_cases ha : p a = true
    · rw [List.dropWhile_cons_of_pos ha] at h
      exact ih h
    · rw [List.dropWhile_cons_of_neg ha] at h
      simp only [List.cons.injEq] at h
      rw [← h.1]
      simpa using ha

theorem normalizeCountry_eq_uk {t : String} (h : normalizeCountry t = "uk") :
    startsWithL t.toList "uk_".toList = true := by
  rw [normalizeCountry_eq] at h
  by_cases ht : t = "uk"
  · rw [if_pos ht] at h
    exact absurd h (by decide)
  · rw [if_neg ht] at h
    have htake : t.toList.takeWhile (fun c => c != '_') = ['u', 'k'] := by
      have := congrArg String.toList h
      simpa [splitFirst] using this
    have hsplit := List.takeWhile_append_dropWhile (fun c => c != '_') t.toList
    rw [htake] at hsplit
    cases hd : t.toList.dropWhile (fun c => c != '_') with
    | nil =>
      rw [hd] at hsplit
      exact absurd (String.ext (by simpa using hsplit.symm)) ht
    | cons c rest =>
      have hc := dropWhile_head_false _ _ _ _ hd
      have hc2 : c = '_' := by simpa using hc
      rw [hd, hc2] at hsplit
      rw [← hsplit]
      show startsWithL ('u' :: 'k' :: '_' :: rest) ['u', 'k', '_'] = true
      simp [startsWithL]

/-- C8, amended: the normalization of `getCountry` sends `uk` to `gb`, and
for every raw token whose normalized form is not `uk` normalizing the
result again changes nothing; the normalized form is `uk`, and `getCountry`
returns `uk`, only for a token that starts with `uk_`. -/
theorem normalizeCountry_idempotent (t : String) :
    normalizeCountry "uk" = "gb"
      ∧ (normalizeCountry t ≠ "uk" →
          normalizeCountry (normalizeCountry t) = normalizeCountry t)
      ∧ (normalizeCountry t = "uk" → startsWithL t.toList "uk_".toList = true)
      ∧ ∀ pg : Page, getCountry pg = "uk" →
          startsWithL (rawCountry pg).toList "uk_".toList = true := by
  refine ⟨by decide, fun h => ?_, normalizeCountry_eq_uk, fun pg h => normalizeCountry_eq_uk h⟩
  rw [normalizeCountry_eq (normalizeCountry t), if_neg h, normalizeCountry_eq t,
    splitFirst_idem]

/-- C8, amended, at the token `ch_de`. -/
theorem normalizeCountry_idempotent_witness :
    normalizeCountry "ch_de" ≠ "uk"
      ∧ normalizeCountry (normalizeCountry "ch_de") = normalizeCountry "ch_de" :=
  ⟨by decide, (normalizeCountry_idempotent "ch_de").2.1 (by decide)⟩

/-- C9, as stated, fails: with `country=FR` in the query of the page
`getCountry` returns `FR`, which has upper-case letters. -/
theorem getCountry_keeps_upper_case :
    getCountry { plainPage with searchParams := [("country", "FR")] } = "FR"
      ∧ ("FR".toList.any Char.isUpper) = true := by
  decide

/-- C9, amended: `getCountry` does not change the case of the token it
takes from the query parameter, the cookie or the browser locale. Every
character it returns is a character of that token, or the token is `uk` and
the result `gb`; so the result has no upper-case letter whenever the token
of the supplying source has none. For a token other than `uk` the result is
the token up to its first underscore, letter for letter. -/
theorem getCountry_case_preserved (pg : Page) :
    ((∀ c ∈ (getCountry pg).toList, c ∈ (rawCountry pg).toList)
        ∨ (rawCountry pg = "uk" ∧ getCountry pg = "gb"))
      ∧ ((rawCountry pg).toList.any Char.isUpper = false →
          (getCountry pg).toList.any Char.isUpper = false)
      ∧ (rawCountry pg ≠ "uk" →
          (getCountry pg).toList = (rawCountry pg).toList.takeWhile (fun c => c != '_')) := by
  have key : (∀ c ∈ (getCountry pg).toList, c ∈ (rawCountry pg).toList)
      ∨ (rawCountry pg = "uk" ∧ getCountry pg = "gb") := by
    unfold getCountry
    rw [normalizeCountry_eq]
    by_cases h : rawCountry pg = "uk"
    · right; rw [if_pos h]; exact ⟨h, by decide⟩
    · left; rw [if_neg h]; exact fun c hc => mem_splitFirst hc
  refine ⟨key, fun h => ?_, fun h => ?_⟩
  · rcases key with hk | hk
    · rw [List.any_eq_false] at h ⊢
      exact fun c hc => h c (hk c hc)
    · rw [hk.2]; decide
  · unfold getCountry
    rw [normalizeCountry_eq, if_neg h]
    rfl

/-- C9, amended, on a page whose cookie holds `ch_de`. -/
theorem getCountry_case_preserved_witness :
    (rawCountry { plainPage with getCookie := fun _ => some "ch_de" }).toList.any
        Char.isUpper = false
      ∧ (getCountry { plainPage with getCookie := fun _ => some "ch_de" }).toList.any
        Char.isUpper = false :=
  ⟨by decide,
    (getCountry_case_preserved { plainPage with getCookie := fun _ => some "ch_de" }).2.1
      (by decide)⟩

end Pricing

namespace Pricing

/-! ## `getCurrency` and `getOffer` -/

theorem getCurrency_of_ne_empty (pg : Page) {l : String} (h : l ≠ "") :
    getCurrency pg (some l) = lookupProperty currencies l := by
  simp [getCurrency, h]

theorem currencies_entries :
    ∀ kv ∈ currencies, kv.1 ≠ "" ∧ lookupProperty currencies kv.1 = .code kv.2
      ∧ isCurrencyCode kv.2 = true ∧ isWellFormedCurrencyCode kv.2 = true := by
  decide

theorem lookupProperty_code {k c : String} (h : lookupProperty currencies k = .code c) :
    isCurrencyCode c = true ∧ isWellFormedCurrencyCode c = true := by
  unfold lookupProperty at h
  split at h
  · next kv hkv =>
    have hm := List.mem_of_find?_eq_some hkv
    have := currencies_entries kv hm
    simp only [CurrencyValue.code.injEq] at h
    subst h
    exact ⟨this.2.2.1, this.2.2.2⟩
  · split at h <;> simp at h

theorem chosenCountry_ne_empty (pg : Page) (ov : Option String) :
    chosenCountry pg ov ≠ "" := by
  unfold chosenCountry
  simp only []
  split
  · decide
  · next h => simpa using h

theorem resolveCountryCurrency_eq (pg : Page) (ov : Option String) :
    resolveCountryCurrency pg ov =
      if (getCurrency pg (some (chosenCountry pg ov))).truthy = true then
        (chosenCountry pg ov, getCurrency pg (some (chosenCountry pg ov)))
      else ("us", .code "USD") := by
  unfold resolveCountryCurrency
  simp only []
  by_cases h : (getCurrency pg (some (chosenCountry pg ov))).truthy = true <;> simp [h]

theorem resolveCountryCurrency_spec (pg : Page) (ov : Option String) :
    (resolveCountryCurrency pg ov).2.truthy = true
      ∧ (resolveCountryCurrency pg ov).1 ≠ ""
      ∧ (resolveCountryCurrency pg ov).2
          = getCurrency pg (some (resolveCountryCurrency pg ov).1) := by
  rw [resolveCountryCurrency_eq]
  by_cases h : (getCurrency pg (some (chosenCountry pg ov))).truthy = true
  · rw [if_pos h]
    exact ⟨h, chosenCountry_ne_empty pg ov, rfl⟩
  · rw [if_neg h]
    refine ⟨by decide, by decide, ?_⟩
    show CurrencyValue.code "USD" = getCurrency pg (some "us")
    rw [getCurrency_of_ne_empty pg (by decide)]
    decide

theorem formatPrice_isSome {B : Browser} {pg : Page} {price f : String} {cur : CurrencyValue}
    (h : formatPrice B pg price cur = some f) :
    ∃ c, cur = .code c ∧ isWellFormedCurrencyCode c = true := by
  unfold formatPrice intlNumberFormat at h
  cases cur with
  | undefined => simp at h
  | inherited n => simp at h
  | code c =>
    refine ⟨c, rfl, ?_⟩
    by_cases hw : isWellFormedCurrencyCode c = true
    · exact hw
    · simp [hw] at h

theorem formatPrice_code (B : Browser) (pg : Page) (price c : String)
    (hw : isWellFormedCurrencyCode c = true) :
    ∃ f, formatPrice B pg price (.code c) = some f := by
  unfold formatPrice intlNumberFormat
  simp [hw]

theorem getOffer_some_inv {B : Browser} {pg : Page} {resp : Response} {offerId : String}
    {ov : Option String} {r : ResolvedOffer}
    (h : getOffer B pg resp offerId ov = some (some r)) :
    resp.ok = true ∧ ∃ offer f,
      selectOffer resp.data offerId (toUpperCase (resolveCountryCurrency pg ov).1)
          = some offer
        ∧ formatPrice B pg offer.p (resolveCountryCurrency pg ov).2 = some f
        ∧ r.country = (resolveCountryCurrency pg ov).1
        ∧ r.currency = (resolveCountryCurrency pg ov).2
        ∧ r.unitPrice = offer.p ∧ r.vatInfo = offer.vat
        ∧ r.prefixText = offer.pre ∧ r.suffixText = offer.suf := by
  unfold getOffer at h
  by_cases hok : resp.ok = true
  · refine ⟨hok, ?_⟩
    simp only [hok, Bool.not_true, Bool.false_eq_true, if_false] at h
    split at h
    · next offer hsel =>
      split at h
      · simp at h
      · next f hf =>
        simp only [Option.some.injEq] at h
        subst h
        exact ⟨offer, f, hsel, hf, rfl, rfl, rfl, rfl, rfl, rfl⟩
    · simp at h
  · simp [hok] at h

theorem getOffer_of_selected (B : Browser) (pg : Page) (resp : Response) (offerId : String)
    (ov : Option String) {offer : OfferRecord} {f : String} (hok : resp.ok = true)
    (hsel : selectOffer resp.data offerId (toUpperCase (resolveCountryCurrency pg ov).1)
      = some offer)
    (hf : formatPrice B pg offer.p (resolveCountryCurrency pg ov).2 = some f) :
    ∃ r, getOffer B pg resp offerId ov = some (some r)
      ∧ r.country = (resolveCountryCurrency pg ov).1
      ∧ r.currency = (resolveCountryCurrency pg ov).2
      ∧ r.unitPrice = offer.p := by
  unfold getOffer
  simp only [hok, Bool.not_true, Bool.false_eq_true, if_false, hsel, hf]
  exact ⟨_, rfl, rfl, rfl, rfl⟩

theorem getOffer_empty_iff (B : Browser) (pg : Page) (resp : Response) (offerId : String)
    (ov : Option String) :
    getOffer B pg resp offerId ov = some none ↔
      resp.ok = false
        ∨ selectOffer resp.data offerId (toUpperCase (resolveCountryCurrency pg ov).1)
            = none := by
  unfold getOffer
  by_cases hok : resp.ok = true
  · simp only [hok, Bool.not_true, Bool.false_eq_true, if_false, false_or]
    split
    · next offer hsel =>
      split <;> simp [hsel]
    · next hsel => simp [hsel]
  · simp [hok]

theorem chosenCountry_override (pg : Page) {c : String} (h : c ≠ "") :
    chosenCountry pg (some c) = c := by
  simp [chosenCountry, h]

theorem selectOffer_eq (data : List OfferRecord) (offerId upperCountry : String) :
    selectOffer data offerId upperCountry =
      match data.find? (fun e => e.o == offerId && e.c == upperCountry) with
      | some offer => some offer
      | none => data.find? (fun e => e.o == offerId && e.c == "US") := rfl

theorem getOffer_of_ok (B : Browser) (pg : Page) (resp : Response) (offerId : String)
    (ov : Option String) (hok : resp.ok = true) (e : OfferRecord)
    (hsel : selectOffer resp.data offerId (toUpperCase (resolveCountryCurrency pg ov).1)
      = some e) :
    getOffer B pg resp offerId ov =
      (formatPrice B pg e.p (resolveCountryCurrency pg ov).2).map (fun f => some {
        country := (resolveCountryCurrency pg ov).1
        currency := (resolveCountryCurrency pg ov).2
        unitPrice := e.p
        unitPriceCurrencyFormatted := f
        commerceURL := "https://commerce.adobe.com/checkout?cli=spark&co="
          ++ (resolveCountryCurrency pg ov).1 ++ "&items%5B0%5D%5Bid%5D=" ++ offerId
          ++ "&items%5B0%5D%5Bcs%5D=0&rUrl=https%3A%2F%express.adobe.com%2Fsp%2F&lang="
          ++ splitFirst (pg.getLanguage pg.getLocale) '-'
        lang := splitFirst (pg.getLanguage pg.getLocale) '-'
        vatInfo := e.vat
        prefixText := e.pre
        suffixText := e.suf }) := by
  unfold getOffer
  simp only [hok, Bool.not_true, Bool.false_eq_true, if_false, hsel]
  cases formatPrice B pg e.p (resolveCountryCurrency pg ov).2 <;> rfl

theorem resolveCountryCurrency_code_wellFormed {pg : Page} {ov : Option String} {c : String}
    (h : (resolveCountryCurrency pg ov).2 = .code c) : isWellFormedCurrencyCode c = true := by
  obtain ⟨-, hne, heq⟩ := resolveCountryCurrency_spec pg ov
  rw [heq, getCurrency_of_ne_empty pg hne] at h
  exact (lookupProperty_code h).2

/-- C3: for every offers list, offerId and resolved country, when the
response is ok, `getOffer` takes the price, VAT text, prefix and suffix from
the first record of the offer for the upper-cased resolved country if there
is one, and otherwise from the first record of the offer for `US`: it hands
the price of that record to `formatPrice` and resolves to the offer built
from that record. Whenever the resolved currency is a string, as every
entry of the currency table is, the offer is produced. A US record is used
only when no record matches the country. -/
theorem getOffer_selects_country_then_US (B : Browser) (pg : Page) (resp : Response)
    (offerId : String) (countryOverride : Option String) (hok : resp.ok = true) :
    (∀ e, resp.data.find? (fun e => e.o == offerId
          && e.c == toUpperCase (resolveCountryCurrency pg countryOverride).1) = some e →
        getOffer B pg resp offerId countryOverride =
          (formatPrice B pg e.p (resolveCountryCurrency pg countryOverride).2).map
            (fun f => some {
              country := (resolveCountryCurrency pg countryOverride).1
              currency := (resolveCountryCurrency pg countryOverride).2
              unitPrice := e.p
              unitPriceCurrencyFormatted := f
              commerceURL := "https://commerce.adobe.com/checkout?cli=spark&co="
                ++ (resolveCountryCurrency pg countryOverride).1
                ++ "&items%5B0%5D%5Bid%5D=" ++ offerId
                ++ "&items%5B0%5D%5Bcs%5D=0&rUrl=https%3A%2F%express.adobe.com%2Fsp%2F&lang="
                ++ splitFirst (pg.getLanguage pg.getLocale) '-'
              lang := splitFirst (pg.getLanguage pg.getLocale) '-'
              vatInfo := e.vat
              prefixText := e.pre
              suffixText := e.suf }))
      ∧ (resp.data.find? (fun e => e.o == offerId
            && e.c == toUpperCase (resolveCountryCurrency pg countryOverride).1) = none →
          ∀ e, resp.data.find? (fun e => e.o == offerId && e.c == "US") = some e →
            getOffer B pg resp offerId countryOverride =
              (formatPrice B pg e.p (resolveCountryCurrency pg countryOverride).2).map
                (fun f => some {
                  country := (resolveCountryCurrency pg countryOverride).1
                  currency := (resolveCountryCurrency pg countryOverride).2
                  unitPrice := e.p
                  unitPriceCurrencyFormatted := f
                  commerceURL := "https://commerce.adobe.com/checkout?cli=spark&co="
                    ++ (resolveCountryCurrency pg countryOverride).1
                    ++ "&items%5B0%5D%5Bid%5D=" ++ offerId
                    ++ "&items%5B0%5D%5Bcs%5D=0&rUrl=https%3A%2F%express.adobe.com%2Fsp%2F&lang="
                    ++ splitFirst (pg.getLanguage pg.getLocale) '-'
                  lang := splitFirst (pg.getLanguage pg.getLocale) '-'
                  vatInfo := e.vat
                  prefixText := e.pre
                  suffixText := e.suf }))
      ∧ (∀ c, (resolveCountryCurrency pg countryOverride).2 = .code c →
          ∀ e, (resp.data.find? (fun e => e.o == offerId
                && e.c == toUpperCase (resolveCountryCurrency pg countryOverride).1) = some e
              ∨ (resp.data.find? (fun e => e.o == offerId
                  && e.c == toUpperCase (resolveCountryCurrency pg countryOverride).1) = none
                ∧ resp.data.find? (fun e => e.o == offerId && e.c == "US") = some e)) →
            ∃ r, getOffer B pg resp offerId countryOverride = some (some r)
              ∧ r.country = (resolveCountryCurrency pg countryOverride).1
              ∧ r.unitPrice = e.p ∧ r.vatInfo = e.vat ∧ r.prefixText = e.pre
              ∧ r.suffixText = e.suf) := by
  have hexact : ∀ e, resp.data.find? (fun e => e.o == offerId
        && e.c == toUpperCase (resolveCountryCurrency pg countryOverride).1) = some e →
      selectOffer resp.data offerId (toUpperCase (resolveCountryCurrency pg countryOverride).1)
        = some e := by
    intro e he
    rw [selectOffer_eq, he]
  have hus : resp.data.find? (fun e => e.o == offerId
        && e.c == toUpperCase (resolveCountryCurrency pg countryOverride).1) = none →
      ∀ e, resp.data.find? (fun e => e.o == offerId && e.c == "US") = some e →
      selectOffer resp.data offerId (toUpperCase (resolveCountryCurrency pg countryOverride).1)
        = some e := by
    intro hn e he
    rw [selectOffer_eq, hn, he]
  refine ⟨fun e he => getOffer_of_ok B pg resp offerId countryOverride hok e (hexact e he),
    fun hn e he => getOffer_of_ok B pg resp offerId countryOverride hok e (hus hn e he),
    fun c hc e hsel => ?_⟩
  have hs : selectOffer resp.data offerId
      (toUpperCase (resolveCountryCurrency pg countryOverride).1) = some e := by
    rcases hsel with he | ⟨hn, he⟩
    · exact hexact e he
    · exact hus hn e he
  obtain ⟨f, hf⟩ := formatPrice_code B pg e.p c (resolveCountryCurrency_code_wellFormed hc)
  rw [getOffer_of_ok B pg resp offerId countryOverride hok e hs, hc, hf]
  exact ⟨_, rfl, hc ▸ rfl, rfl, rfl, rfl, rfl⟩

/-- C3 on the sample offers, whose US record comes first: for the override
`fr` the French record is used, and for the override `de`, which has no
record, the US record is. -/
theorem getOffer_selects_country_then_US_witness :
    getOffer referenceBrowser plainPage ⟨true, sampleOffers⟩ "id" (some "fr")
        = some (some frenchOffer)
      ∧ getOffer referenceBrowser plainPage ⟨true, sampleOffers⟩ "id" (some "de")
        = some (some germanOffer)
      ∧ frenchOffer.unitPrice = "8.99" ∧ germanOffer.unitPrice = "9.99" :=
  ⟨((getOffer_selects_country_then_US referenceBrowser plainPage ⟨true, sampleOffers⟩ "id"
      (some "fr") rfl).1
      { o := "id", c := "FR", p := "8.99", vat := "incl", pre := "", suf := "/mois" }
      (by decide)).trans (by decide),
    ((getOffer_selects_country_then_US referenceBrowser plainPage ⟨true, sampleOffers⟩ "id"
      (some "de") rfl).2.1 (by decide)
      { o := "id", c := "US", p := "9.99", vat := "excl", pre := "US$", suf := "/mo" }
      (by decide)).trans (by decide),
    rfl, rfl⟩

/-- C4, as stated, fails: with only a US record, `getOffer('id', 'FR')`
resolves to an offer with the US price whose country field is `us`, not the
requested French country: `FR` is not a key of the currency table, whose
keys are lower-case, so the country is replaced by `us`. -/
theorem getOffer_FR_country_is_us :
    usOffers.find? (fun e => e.o == "id" && e.c == "FR") = none
      ∧ getOffer referenceBrowser plainPage ⟨true, usOffers⟩ "id" (some "FR")
        = some (some fallbackOffer)
      ∧ fallbackOffer.country = "us" ∧ fallbackOffer.country ≠ "FR"
      ∧ fallbackOffer.country ≠ "fr" := by
  decide

/-- C4, amended: for every offers list without a record of the offer for
`FR` and with one for `US`, and an ok response, `getOffer(offerId, 'FR')`
resolves to a non-empty offer with the price of the first US record, whose
country field is the resolved country `us` and whose currency is `USD`,
because `FR` is not a key of the currency table; with the lower-case
override `fr` the country field is the requested `fr` and the currency
`EUR`, still with the price of the US record. -/
theorem getOffer_falls_back_to_US_price (B : Browser) (pg : Page) (data : List OfferRecord)
    (offerId : String) (us : OfferRecord)
    (hfr : data.find? (fun e => e.o == offerId && e.c == "FR") = none)
    (hus : data.find? (fun e => e.o == offerId && e.c == "US") = some us) :
    (∃ r, getOffer B pg ⟨true, data⟩ offerId (some "FR") = some (some r)
        ∧ r.unitPrice = us.p ∧ r.country = "us" ∧ r.currency = .code "USD")
      ∧ (∃ r, getOffer B pg ⟨true, data⟩ offerId (some "fr") = some (some r)
        ∧ r.unitPrice = us.p ∧ r.country = "fr" ∧ r.currency = .code "EUR") := by
  have hFR : resolveCountryCurrency pg (some "FR") = ("us", .code "USD") := by
    rw [resolveCountryCurrency_eq, chosenCountry_override pg (by decide),
      getCurrency_of_ne_empty pg (by decide)]
    decide
  have hfrl : resolveCountryCurrency pg (some "fr") = ("fr", .code "EUR") := by
    rw [resolveCountryCurrency_eq, chosenCountry_override pg (by decide),
      getCurrency_of_ne_empty pg (by decide)]
    decide
  constructor
  · obtain ⟨f, hf⟩ := formatPrice_code B pg us.p "USD" (by decide)
    have hsel : selectOffer data offerId (toUpperCase (resolveCountryCurrency pg (some "FR")).1)
        = some us := by
      rw [hFR, selectOffer_eq]
      show (match data.find? (fun e => e.o == offerId && e.c == toUpperCase "us") with
        | some offer => some offer
        | none => data.find? (fun e => e.o == offerId && e.c == "US")) = some us
      rw [show toUpperCase "us" = "US" by decide, hus]
    obtain ⟨r, hr, h1, h2, h3⟩ := getOffer_of_selected B pg ⟨true, data⟩ offerId
      (some "FR") rfl hsel
      (by rw [hFR]; exact hf)
    exact ⟨r, hr, h3, by rw [h1, hFR], by rw [h2, hFR]⟩
  · obtain ⟨f, hf⟩ := formatPrice_code B pg us.p "EUR" (by decide)
    have hsel : selectOffer data offerId (toUpperCase (resolveCountryCurrency pg (some "fr")).1)
        = some us := by
      rw [hfrl, selectOffer_eq]
      show (match data.find? (fun e => e.o == offerId && e.c == toUpperCase "fr") with
        | some offer => some offer
        | none => data.find? (fun e => e.o == offerId && e.c == "US")) = some us
      rw [show toUpperCase "fr" = "FR" by decide, hfr, hus]
    obtain ⟨r, hr, h1, h2, h3⟩ := getOffer_of_selected B pg ⟨true, data⟩ offerId
      (some "fr") rfl hsel
      (by rw [hfrl]; exact hf)
    exact ⟨r, hr, h3, by rw [h1, hfrl], by rw [h2, hfrl]⟩

/-- C4, amended, on the offers document with only a US record. -/
theorem getOffer_falls_back_to_US_price_witness :
    usOffers.find? (fun e => e.o == "id" && e.c == "FR") = none
      ∧ (usOffers.find? (fun e => e.o == "id" && e.c == "US")).isSome = true
      ∧ ((∃ r, getOffer referenceBrowser plainPage ⟨true, usOffers⟩ "id" (some "FR")
            = some (some r)
          ∧ r.unitPrice = "9.99" ∧ r.country = "us" ∧ r.currency = .code "USD")
        ∧ (∃ r, getOffer referenceBrowser plainPage ⟨true, usOffers⟩ "id" (some "fr")
            = some (some r)
          ∧ r.unitPrice = "9.99" ∧ r.country = "fr" ∧ r.currency = .code "EUR")) :=
  ⟨by decide, by decide,
    getOffer_falls_back_to_US_price referenceBrowser plainPage usOffers "id"
      { o := "id", c := "US", p := "9.99", vat := "excl", pre := "US$", suf := "/mo" }
      (by decide) (by decide)⟩

/-- C5 fails on the code at `getOffer('id', 'constructor')` with an ok
response and a US record of the offer: `currencies['constructor']` is the
function inherited from `Object.prototype`, which is truthy, so it is kept
as the currency, and `Intl.NumberFormat` throws on it. The promise is
rejected although the response is ok and a record is selected; the claim
says the result is then a non-empty offer. -/
theorem getOffer_rejects_inherited_currency (B : Browser) (pg : Page) :
    selectOffer usOffers "id" (toUpperCase "constructor")
        = some { o := "id", c := "US", p := "9.99", vat := "excl", pre := "US$", suf := "/mo" }
      ∧ resolveCountryCurrency pg (some "constructor")
        = ("constructor", .inherited "constructor")
      ∧ getOffer B pg ⟨true, usOffers⟩ "id" (some "constructor") = none := by
  have hres : resolveCountryCurrency pg (some "constructor")
      = ("constructor", .inherited "constructor") := by
    rw [resolveCountryCurrency_eq, chosenCountry_override pg (by decide),
      getCurrency_of_ne_empty pg (by decide)]
    decide
  refine ⟨by decide, hres, ?_⟩
  unfold getOffer
  rw [hres]
  simp only [Bool.not_true, Bool.false_eq_true, if_false]
  rw [show selectOffer usOffers "id" (toUpperCase "constructor")
    = some { o := "id", c := "US", p := "9.99", vat := "excl", pre := "US$", suf := "/mo" }
    by decide]
  simp [formatPrice, intlNumberFormat]

/-- C6 fails on the code at the override `constructor`. The string is not a
key of the currency table, so `getCurrency` does not map it and the claim
has the pair replaced by `us` and `USD`; but `currencies['constructor']` is
the function inherited from `Object.prototype`, which is truthy, so the
pair `getOffer` resolves is `constructor` with that function, and its
currency is no currency code. For every override the currency of the pair
is what `getCurrency` gives for the country of the pair, and it is a code
of three upper-case letters whenever it is a string. -/
theorem resolveCountryCurrency_inherited (pg : Page) :
    chosenCountry pg (some "constructor") = "constructor"
      ∧ currencies.all (fun kv => kv.1 != "constructor") = true
      ∧ resolveCountryCurrency pg (some "constructor")
        = ("constructor", .inherited "constructor")
      ∧ resolveCountryCurrency pg (some "constructor") ≠ ("us", .code "USD")
      ∧ (∀ c, (resolveCountryCurrency pg (some "constructor")).2 ≠ .code c)
      ∧ ∀ countryOverride : Option String,
          (resolveCountryCurrency pg countryOverride).2
              = getCurrency pg (some (resolveCountryCurrency pg countryOverride).1)
            ∧ ∀ c, (resolveCountryCurrency pg countryOverride).2 = .code c →
                isCurrencyCode c = true := by
  have hres : resolveCountryCurrency pg (some "constructor")
      = ("constructor", .inherited "constructor") := by
    rw [resolveCountryCurrency_eq, chosenCountry_override pg (by decide),
      getCurrency_of_ne_empty pg (by decide)]
    decide
  refine ⟨chosenCountry_override pg (by decide), by decide, hres, by rw [hres]; decide,
    fun c => by rw [hres]; exact fun h => CurrencyValue.noConfusion h, fun ov => ?_⟩
  obtain ⟨-, hne, heq⟩ := resolveCountryCurrency_spec pg ov
  refine ⟨heq, fun c hc => ?_⟩
  rw [heq, getCurrency_of_ne_empty pg hne] at hc
  exact (lookupProperty_code hc).1

/-- C7 fails on the code at `getCurrency('constructor')`. Every key of the
table gives its code of three upper-case letters, but `constructor` is a
non-empty string that is not a key of the table, and the property read
`currencies['constructor']` does not give `undefined`: it gives the
function that the object literal inherits from `Object.prototype`. -/
theorem getCurrency_inherited_property (pg : Page) :
    (∀ kv ∈ currencies, getCurrency pg (some kv.1) = .code kv.2
        ∧ isCurrencyCode kv.2 = true)
      ∧ "constructor" ≠ ""
      ∧ currencies.all (fun kv => kv.1 != "constructor") = true
      ∧ getCurrency pg (some "constructor") = .inherited "constructor"
      ∧ getCurrency pg (some "constructor") ≠ .undefined := by
  have hc : getCurrency pg (some "constructor") = .inherited "constructor" := by
    rw [getCurrency_of_ne_empty pg (by decide)]
    decide
  refine ⟨fun kv hkv => ?_, by decide, by decide, hc, by rw [hc]; decide⟩
  obtain ⟨hne, hl, hcode, -⟩ := currencies_entries kv hkv
  exact ⟨by rw [getCurrency_of_ne_empty pg hne, hl], hcode⟩

/-! ## `buildUrl` -/

theorem Params.get_cons_eq (kv : String × String) {k : String} (rest : Params)
    (h : kv.1 = k) : Params.get (kv :: rest) k = some kv.2 := by
  simp [Params.get, List.find?_cons, h]

theorem Params.get_cons_ne (kv : String × String) {k : String} (rest : Params)
    (h : kv.1 ≠ k) : Params.get (kv :: rest) k = Params.get rest k := by
  simp [Params.get, List.find?_cons, h]

theorem Params.set_cons_eq {kv : String × String} {k : String} (rest : Params) (v : String)
    (h : kv.1 = k) :
    Params.set (kv :: rest) k v = (k, v) :: rest.filter (fun e => e.1 != k) := by
  simp [Params.set, h]

theorem Params.set_cons_ne {kv : String × String} {k : String} (rest : Params) (v : String)
    (h : kv.1 ≠ k) : Params.set (kv :: rest) k v = kv :: Params.set rest k v := by
  simp [Params.set, h]

theorem Params.get_set_self (ps : Params) (k v : String) : (ps.set k v).get k = some v := by
  induction ps with
  | nil => exact Params.get_cons_eq (k, v) [] rfl
  | cons kv rest ih =>
    by_cases h : kv.1 = k
    · rw [Params.set_cons_eq rest v h]
      exact Params.get_cons_eq (k, v) _ rfl
    · rw [Params.set_cons_ne rest v h, Params.get_cons_ne _ _ h, ih]

theorem Params.get_filter_ne (ps : Params) (k k2 : String) (h : k2 ≠ k) :
    Params.get (ps.filter (fun e => e.1 != k)) k2 = Params.get ps k2 := by
  induction ps with
  | nil => rfl
  | cons kv rest ih =>
    by_cases h1 : kv.1 = k
    · have h2 : kv.1 ≠ k2 := fun h3 => h (h3.symm.trans h1)
      rw [List.filter_cons_of_neg (by simp [h1]), ih, Params.get_cons_ne _ _ h2]
    · rw [List.filter_cons_of_pos (by simp [h1])]
      by_cases h2 : kv.1 = k2
      · rw [Params.get_cons_eq _ _ h2, Params.get_cons_eq _ _ h2]
      · rw [Params.get_cons_ne _ _ h2, Params.get_cons_ne _ _ h2, ih]

theorem Params.get_set_ne (ps : Params) (k v k2 : String) (h : k2 ≠ k) :
    (ps.set k v).get k2 = ps.get k2 := by
  induction ps with
  | nil =>
    show Params.get [(k, v)] k2 = Params.get [] k2
    rw [Params.get_cons_ne (k, v) [] (Ne.symm h)]
  | cons kv rest ih =>
    by_cases h1 : kv.1 = k
    · have h2 : kv.1 ≠ k2 := fun h3 => h (h3.symm.trans h1)
      rw [Params.set_cons_eq rest v h1, Params.get_cons_ne (k, v) _ (Ne.symm h),
        Params.get_filter_ne rest k k2 h, Params.get_cons_ne _ _ h2]
    · rw [Params.set_cons_ne rest v h1]
      by_cases h2 : kv.1 = k2
      · rw [Params.get_cons_eq _ _ h2, Params.get_cons_eq _ _ h2]
      · rw [Params.get_cons_ne _ _ h2, Params.get_cons_ne _ _ h2, ih]

theorem Params.has_eq_isSome (ps : Params) (k : String) : ps.has k = (ps.get k).isSome := by
  induction ps with
  | nil => rfl
  | cons kv rest ih =>
    by_cases h : kv.1 = k
    · rw [Params.get_cons_eq _ _ h]
      simp [Params.has, h]
    · rw [Params.get_cons_ne _ _ h, ← ih]
      simp [Params.has, h]

theorem URL.href_ne_empty (u : URL) : u.href ≠ "" := by
  intro h
  have h2 := congrArg String.length h
  simp only [URL.href, String.length_append] at h2
  have h3 : ":".length = 1 := by decide
  have h4 : "".length = 0 := by decide
  omega

theorem URL.setParam_searchParams (u : URL) (k v : String) :
    (u.setParam k v).searchParams = u.searchParams.set k v := rfl

theorem URL.setParam_host (u : URL) (k v : String) : (u.setParam k v).host = u.host := rfl

theorem URL.setHostname_searchParams (B : Browser) (u : URL) (v : String) :
    (u.setHostname B v).searchParams = u.searchParams := by
  unfold URL.setHostname
  split <;> rfl

theorem RUrl.toString_ne_empty {r : RUrl} (h : r.truthy = true) : r.toString ≠ "" := by
  cases r with
  | null => simp [RUrl.truthy] at h
  | str s => simpa [RUrl.truthy, RUrl.toString] using h
  | url u => exact URL.href_ne_empty u

theorem RUrl.replaceIfTruthy_truthy {r : RUrl} {pat repl : String}
    (h : (r.replaceIfTruthy pat repl).truthy = true) : r.truthy = true := by
  cases r with
  | null => exact h
  | url u => exact h
  | str s =>
    by_cases hs : s = ""
    · subst hs
      exact h
    · simpa [RUrl.truthy] using hs

theorem RUrl.replaceIfTruthy_of_falsy {r : RUrl} (pat repl : String)
    (h : r.truthy = false) : r.replaceIfTruthy pat repl = r := by
  cases r with
  | null => rfl
  | url u => rfl
  | str s =>
    have hs : s = "" := by simpa [RUrl.truthy] using h
    subst hs
    rfl

theorem RUrl.ofOption_truthy (o : Option String) :
    (RUrl.ofOption o).truthy = Pricing.truthy o := by
  cases o <;> rfl

theorem applyHostParam_spec {B : Browser} {pg : Page} {p p1 : URL} {r r1 : RUrl}
    (h : applyHostParam B pg p r = some (p1, r1)) :
    p1.searchParams = p.searchParams ∧ (r1.truthy = true → r.truthy = true) := by
  unfold applyHostParam at h
  by_cases hh : pg.searchParams.has "host" = true
  · simp only [hh, if_true] at h
    cases hp : B.parseURL ((pg.searchParams.get "host").getD "null") with
    | none => simp [hp] at h
    | some parsed =>
      simp only [hp] at h
      split_ifs at h <;>
        (simp only [Option.some.injEq, Prod.mk.injEq] at h
         obtain ⟨rfl, rfl⟩ := h
         first
         | exact ⟨rfl, id⟩
         | exact ⟨rfl, RUrl.replaceIfTruthy_truthy⟩
         | exact ⟨rfl, fun ht => RUrl.replaceIfTruthy_truthy (RUrl.replaceIfTruthy_truthy ht)⟩)
  · simp only [hh, Bool.false_eq_true, if_false, Option.some.injEq, Prod.mk.injEq] at h
    obtain ⟨rfl, rfl⟩ := h
    exact ⟨rfl, id⟩

theorem applyHostParam_express {B : Browser} {pg : Page} {hostParam : String} {parsed : URL}
    (p : URL) (r : RUrl) (hhost : pg.searchParams.get "host" = some hostParam)
    (hparsed : B.parseURL hostParam = some parsed)
    (hexp : parsed.hostPort = "express.adobe.com") :
    applyHostParam B pg p r = some ({ p with host := some "commerce.adobe.com" },
      r.replaceIfTruthy "express.adobe.com" hostParam) := by
  have hhas : pg.searchParams.has "host" = true := by
    rw [Params.has_eq_isSome, hhost]; rfl
  unfold applyHostParam
  simp [hhas, hhost, hparsed, hexp]

theorem applyEnvCommerce_searchParams (B : Browser) (env : Option HelixEnv) (p : URL) :
    (applyEnvCommerce B env p).searchParams = p.searchParams := by
  unfold applyEnvCommerce
  split
  · split
    · split
      · exact URL.setHostname_searchParams B p _
      · rfl
    · rfl
  · rfl

theorem applyEnvCommerce_of_no_commerce (B : Browser) {env : Option HelixEnv} (p : URL)
    (h : ∀ e, env = some e → truthy e.commerce = false) : applyEnvCommerce B env p = p := by
  unfold applyEnvCommerce
  split
  · next e =>
    have he := h e rfl
    split
    · next c hc =>
      rw [hc] at he
      have : c = "" := by simpa [truthy] using he
      simp [this]
    · rfl
  · rfl

theorem applyEnvSpark_truthy {B : Browser} {env : Option HelixEnv} {r r2 : RUrl}
    (h : applyEnvSpark B env r = some r2) : r2.truthy = true → r.truthy = true := by
  unfold applyEnvSpark at h
  split at h
  · split at h
    · split_ifs at h with hc
      · intro _
        simp only [Bool.and_eq_true] at hc
        exact hc.2
      · simp only [Option.some.injEq] at h
        subst h
        exact id
    · simp only [Option.some.injEq] at h
      subst h
      exact id
  · simp only [Option.some.injEq] at h
    subst h
    exact id

theorem applyEnvSpark_of_falsy (B : Browser) (env : Option HelixEnv) {r : RUrl}
    (h : r.truthy = false) : applyEnvSpark B env r = some r := by
  unfold applyEnvSpark
  split
  · split
    · simp [h]
    · rfl
  · rfl

theorem applyHelixEnv_spec {B : Browser} {pg : Page} {p p2 : URL} {r r2 : RUrl}
    (h : applyHelixEnv B pg p r = some (p2, r2)) :
    p2 = applyEnvCommerce B pg.getHelixEnv p ∧ (r2.truthy = true → r.truthy = true) := by
  unfold applyHelixEnv at h
  simp only [] at h
  split at h
  · simp at h
  · next r3 hr3 =>
    simp only [Option.some.injEq, Prod.mk.injEq] at h
    obtain ⟨rfl, rfl⟩ := h
    exact ⟨rfl, applyEnvSpark_truthy hr3⟩

theorem applyHelixEnv_of_falsy (B : Browser) (pg : Page) (p : URL) {r : RUrl}
    (h : r.truthy = false) :
    applyHelixEnv B pg p r = some (applyEnvCommerce B pg.getHelixEnv p, r) := by
  unfold applyHelixEnv
  simp only [applyEnvSpark_of_falsy B pg.getHelixEnv h]

theorem applyTracking_truthy {B : Browser} {pg : Page} {r r3 : RUrl}
    (h : applyTracking B pg r = some r3) : r3.truthy = r.truthy := by
  unfold applyTracking at h
  split_ifs at h with hc
  · split at h
    · simp at h
    · simp only [Option.some.injEq] at h
      subst h
      rw [hc]
      rfl
  · simp only [Option.some.injEq] at h
    subst h
    rfl

theorem applyTracking_of_falsy (B : Browser) (pg : Page) {r : RUrl} (h : r.truthy = false) :
    applyTracking B pg r = some r := by
  simp [applyTracking, h]

theorem applyPageOverrides_host (pg : Page) (p : URL) (r : RUrl) :
    (applyPageOverrides pg p r).host = p.host := by
  unfold applyPageOverrides
  simp only []
  split_ifs <;> rfl

theorem buildUrlObject_noncommerce {B : Browser} (pg : Page) {optionUrl : String} {u : URL}
    (country language : String) (hp : B.parseURL optionUrl = some u)
    (hh : includes u.hostname "commerce" = false) :
    buildUrlObject B pg optionUrl country language = some u := by
  simp [buildUrlObject, hp, hh]

theorem buildUrlObject_inv {B : Browser} {pg : Page} {optionUrl country language : String}
    {u r : URL} (hp : B.parseURL optionUrl = some u)
    (hc : includes u.hostname "commerce" = true)
    (h : buildUrlObject B pg optionUrl country language = some r) :
    ∃ p1 r1 p2 r2 r3,
      applyHostParam B pg (replaceUrlParam (replaceUrlParam u "co" country) "lang" language)
          (RUrl.ofOption ((replaceUrlParam (replaceUrlParam u "co" country) "lang"
            language).searchParams.get "rUrl")) = some (p1, r1)
        ∧ applyHelixEnv B pg p1 r1 = some (p2, r2)
        ∧ applyTracking B pg r2 = some r3
        ∧ r = applyPageOverrides pg p2 r3 := by
  unfold buildUrlObject at h
  simp only [hp, hc, Bool.not_true, Bool.false_eq_true, if_false] at h
  split at h
  · simp at h
  · next p1 r1 h1 =>
    split at h
    · simp at h
    · next p2 r2 h2 =>
      split at h
      · simp at h
      · next r3 h3 =>
        simp only [Option.some.injEq] at h
        exact ⟨p1, r1, p2, r2, r3, h1, h2, h3, h.symm⟩

theorem planUrl_get_rUrl (u : URL) (country language : String) :
    (replaceUrlParam (replaceUrlParam u "co" country) "lang" language).searchParams.get "rUrl"
      = u.searchParams.get "rUrl" := by
  unfold replaceUrlParam
  rw [URL.setParam_searchParams, URL.setParam_searchParams,
    Params.get_set_ne _ _ _ _ (by decide), Params.get_set_ne _ _ _ _ (by decide)]

theorem applyPageOverrides_get_of_page {pg : Page} {v : String} (p : URL) (r : RUrl)
    (hv : pg.searchParams.get "rUrl" = some v) (hne : v ≠ "") :
    (applyPageOverrides pg p r).searchParams.get "rUrl" = some v := by
  unfold applyPageOverrides
  have ht : truthy (some v) = true := by simpa [truthy] using hne
  have ht2 : (RUrl.str v).truthy = true := by simpa [RUrl.truthy] using hne
  simp only [hv, ht, if_true, RUrl.ofOption, ht2]
  rw [URL.setParam_searchParams, Params.get_set_self]
  rfl

theorem applyPageOverrides_get_of_no_page {pg : Page} (p : URL) (r : RUrl)
    (hv : truthy (pg.searchParams.get "rUrl") = false) :
    (applyPageOverrides pg p r).searchParams.get "rUrl"
      = if r.truthy = true then some r.toString else p.searchParams.get "rUrl" := by
  unfold applyPageOverrides
  simp only [hv, Bool.false_eq_true, if_false]
  have hcode : ∀ q : URL, (if pg.searchParams.has "code" = true then
      q.setParam "code" ((pg.searchParams.get "code").getD "null") else q).searchParams.get
        "rUrl" = q.searchParams.get "rUrl" := by
    intro q
    split_ifs
    · rw [URL.setParam_searchParams, Params.get_set_ne _ _ _ _ (by decide)]
    · rfl
  by_cases hr : r.truthy = true
  · simp only [hr, if_true]
    rw [URL.setParam_searchParams, Params.get_set_self]
  · simp only [hr, Bool.false_eq_true, if_false]
    exact hcode p

/-- C1, as stated, fails: `https://example.com` parses, its hostname does
not contain `commerce`, and `buildUrl` returns `https://example.com/`, the
serialization of the parsed URL, which is not the input string. -/
theorem buildUrl_noncommerce_not_input :
    referenceBrowser.parseURL "https://example.com" = some exampleUrl
      ∧ includes exampleUrl.hostname "commerce" = false
      ∧ buildUrl referenceBrowser plainPage "https://example.com" "us" "en"
        = some "https://example.com/"
      ∧ buildUrl referenceBrowser plainPage "https://example.com" "us" "en"
        ≠ some "https://example.com" := by
  decide

/-- C1, amended: for every parseable `optionUrl` whose hostname does not
contain `commerce`, and every country, language and page, `buildUrl` returns
the serialization `href` of the parsed URL, which is left as parsed: no
query parameter is added, removed or rewritten. The result is the input
string exactly when the input is already in serialized form. -/
theorem buildUrl_noncommerce_href (B : Browser) (pg : Page)
    (optionUrl country language : String) (u : URL)
    (hp : B.parseURL optionUrl = some u) (hh : includes u.hostname "commerce" = false) :
    buildUrlObject B pg optionUrl country language = some u
      ∧ buildUrl B pg optionUrl country language = some u.href
      ∧ (buildUrl B pg optionUrl country language = some optionUrl ↔ u.href = optionUrl) := by
  have h := buildUrlObject_noncommerce pg country language hp hh
  have h2 : buildUrl B pg optionUrl country language = some u.href := by
    rw [buildUrl, h]; rfl
  exact ⟨h, h2, by rw [h2]; exact Option.some_inj⟩

/-- C1, amended, at `https://example.com/`, which is in serialized form. -/
theorem buildUrl_noncommerce_href_witness :
    referenceBrowser.parseURL "https://example.com/" = some exampleUrl
      ∧ includes exampleUrl.hostname "commerce" = false
      ∧ buildUrl referenceBrowser plainPage "https://example.com/" "us" "en"
        = some "https://example.com/" :=
  ⟨by decide, by decide,
    (buildUrl_noncommerce_href referenceBrowser plainPage "https://example.com/" "us" "en"
      exampleUrl (by decide) (by decide)).2.1⟩

/-- C2, as stated, fails: with `host=express.adobe.com` in the query of the
page, `new URL('express.adobe.com')` throws, so `buildUrl` throws on a
commerce plan URL instead of returning a URL on `commerce.adobe.com`. -/
theorem buildUrl_bare_host_throws :
    referenceBrowser.parseURL "https://commerce-stg.adobe.com/checkout?cli=spark"
        = some stagePlanUrl
      ∧ includes stagePlanUrl.hostname "commerce" = true
      ∧ Params.get [("host", "express.adobe.com")] "host" = some "express.adobe.com"
      ∧ referenceBrowser.parseURL "express.adobe.com" = none
      ∧ buildUrl referenceBrowser
          { plainPage with searchParams := [("host", "express.adobe.com")] }
          "https://commerce-stg.adobe.com/checkout?cli=spark" "us" "en" = none := by
  decide

/-- C2, amended: for every plan URL whose hostname contains `commerce`,
when the `host` parameter of the page parses as a URL whose host is
`express.adobe.com` (as `https://express.adobe.com` does; the bare
`express.adobe.com` does not parse) and the environment descriptor supplies
no commerce hostname, every URL `buildUrl` returns has the hostname
`commerce.adobe.com`; and `buildUrl` does return when the plan URL carries
no non-empty `rUrl`. -/
theorem buildUrl_host_express (B : Browser) (pg : Page)
    (optionUrl country language hostParam : String) (u parsed : URL)
    (hp : B.parseURL optionUrl = some u) (hc : includes u.hostname "commerce" = true)
    (hhost : pg.searchParams.get "host" = some hostParam)
    (hparsed : B.parseURL hostParam = some parsed)
    (hexp : parsed.hostPort = "express.adobe.com")
    (henv : ∀ e, pg.getHelixEnv = some e → truthy e.commerce = false) :
    (∀ r, buildUrlObject B pg optionUrl country language = some r →
        r.hostname = "commerce.adobe.com")
      ∧ (truthy (u.searchParams.get "rUrl") = false →
          ∃ r, buildUrlObject B pg optionUrl country language = some r
            ∧ r.hostname = "commerce.adobe.com"
            ∧ buildUrl B pg optionUrl country language = some r.href) := by
  have hall : ∀ r, buildUrlObject B pg optionUrl country language = some r →
      r.hostname = "commerce.adobe.com" := by
    intro r hr
    obtain ⟨p1, r1, p2, r2, r3, h1, h2, -, h4⟩ := buildUrlObject_inv hp hc hr
    rw [applyHostParam_express _ _ hhost hparsed hexp] at h1
    simp only [Option.some.injEq, Prod.mk.injEq] at h1
    obtain ⟨hp1, -⟩ := h1
    have hp2 := (applyHelixEnv_spec h2).1
    rw [applyEnvCommerce_of_no_commerce B p1 henv] at hp2
    rw [h4, URL.hostname, applyPageOverrides_host, hp2, ← hp1]
    rfl
  refine ⟨hall, fun hfalsy => ?_⟩
  have hr0 : (RUrl.ofOption ((replaceUrlParam (replaceUrlParam u "co" country) "lang"
      language).searchParams.get "rUrl")).truthy = false := by
    rw [RUrl.ofOption_truthy, planUrl_get_rUrl, hfalsy]
  have hobj : ∃ r, buildUrlObject B pg optionUrl country language = some r := by
    unfold buildUrlObject
    simp only [hp, hc, Bool.not_true, Bool.false_eq_true, if_false]
    rw [applyHostParam_express _ _ hhost hparsed hexp,
      RUrl.replaceIfTruthy_of_falsy _ _ hr0]
    simp only [applyHelixEnv_of_falsy B pg _ hr0, applyTracking_of_falsy B pg hr0]
    exact ⟨_, rfl⟩
  obtain ⟨r, hr⟩ := hobj
  exact ⟨r, hr, hall r hr, by rw [buildUrl, hr]; rfl⟩

/-- C2, amended, with `host=https://express.adobe.com` in the query of the
page and the plan URL `https://commerce-stg.adobe.com/checkout?cli=spark`. -/
theorem buildUrl_host_express_witness :
    ∃ r, buildUrlObject referenceBrowser
          { plainPage with searchParams := [("host", "https://express.adobe.com")] }
          "https://commerce-stg.adobe.com/checkout?cli=spark" "us" "en" = some r
      ∧ r.hostname = "commerce.adobe.com"
      ∧ buildUrl referenceBrowser
          { plainPage with searchParams := [("host", "https://express.adobe.com")] }
          "https://commerce-stg.adobe.com/checkout?cli=spark" "us" "en" = some r.href :=
  (buildUrl_host_express referenceBrowser
    { plainPage with searchParams := [("host", "https://express.adobe.com")] }
    "https://commerce-stg.adobe.com/checkout?cli=spark" "us" "en"
    "https://express.adobe.com" stagePlanUrl expressUrl
    (by decide) (by decide) (by decide) (by decide) (by decide)
    (fun e he => by simp [plainPage] at he)).2 (by decide)

/-- C10, as stated, fails: the page carries no `rUrl` and the plan URL
`https://commerce.adobe.com/?rUrl=` embeds no non-empty one, yet the URL
`buildUrl` returns has an `rUrl` parameter, the empty one of the plan URL. -/
theorem buildUrl_keeps_empty_rUrl :
    referenceBrowser.parseURL "https://commerce.adobe.com/?rUrl=" = some emptyRedirectPlanUrl
      ∧ includes emptyRedirectPlanUrl.hostname "commerce" = true
      ∧ plainPage.searchParams.get "rUrl" = none
      ∧ truthy (emptyRedirectPlanUrl.searchParams.get "rUrl") = false
      ∧ buildUrl referenceBrowser plainPage "https://commerce.adobe.com/?rUrl=" "us" "en"
        = some "https://commerce.adobe.com/?rUrl=&co=us&lang=en"
      ∧ (buildUrlObject referenceBrowser plainPage "https://commerce.adobe.com/?rUrl=" "us"
          "en").map (fun r => r.searchParams.has "rUrl") = some true := by
  decide

/-- C10, amended: for every commerce plan URL on which `buildUrl` returns,
if the page carries a non-empty `rUrl` parameter `v`, the `rUrl` parameter
of the returned URL is exactly `v`; and if the page carries no `rUrl` or an
empty one, the returned URL has an `rUrl` parameter exactly when the plan
URL embedded one, and that parameter is non-empty exactly when the embedded
one is non-empty. -/
theorem buildUrl_rUrl_parameter (B : Browser) (pg : Page)
    (optionUrl country language : String) (u r : URL)
    (hp : B.parseURL optionUrl = some u) (hc : includes u.hostname "commerce" = true)
    (hr : buildUrlObject B pg optionUrl country language = some r) :
    buildUrl B pg optionUrl country language = some r.href
      ∧ (∀ v, pg.searchParams.get "rUrl" = some v → v ≠ "" →
          r.searchParams.get "rUrl" = some v)
      ∧ (truthy (pg.searchParams.get "rUrl") = false →
          r.searchParams.has "rUrl" = u.searchParams.has "rUrl"
            ∧ truthy (r.searchParams.get "rUrl") = truthy (u.searchParams.get "rUrl")) := by
  obtain ⟨p1, r1, p2, r2, r3, h1, h2, h3, h4⟩ := buildUrlObject_inv hp hc hr
  refine ⟨by rw [buildUrl, hr]; rfl, fun v hv hne => ?_, fun hno => ?_⟩
  · rw [h4]
    exact applyPageOverrides_get_of_page p2 r3 hv hne
  · have hp2 : p2.searchParams.get "rUrl" = u.searchParams.get "rUrl" := by
      rw [(applyHelixEnv_spec h2).1, applyEnvCommerce_searchParams,
        (applyHostParam_spec h1).1, planUrl_get_rUrl]
    have hget : r.searchParams.get "rUrl"
        = if r3.truthy = true then some r3.toString else u.searchParams.get "rUrl" := by
      rw [h4, applyPageOverrides_get_of_no_page p2 r3 hno, hp2]
    rw [Params.has_eq_isSome, Params.has_eq_isSome, hget]
    by_cases ht : r3.truthy = true
    · have hu : truthy (u.searchParams.get "rUrl") = true := by
        have h0 := (applyHostParam_spec h1).2
          ((applyHelixEnv_spec h2).2 (by rw [← applyTracking_truthy h3]; exact ht))
        rwa [RUrl.ofOption_truthy, planUrl_get_rUrl] at h0
      have hne := RUrl.toString_ne_empty ht
      simp only [ht, if_true, hu]
      cases hg : u.searchParams.get "rUrl" with
      | none => rw [hg] at hu; simp [truthy] at hu
      | some s => simpa [truthy] using hne
    · simp only [ht, Bool.false_eq_true, if_false, and_self]

/-- C10, amended, on a page with `rUrl=https://example.com/back` and a plan
URL that embeds another redirect target. -/
theorem buildUrl_rUrl_parameter_witness :
    ∃ r, buildUrlObject referenceBrowser
          { plainPage with searchParams := [("rUrl", "https://example.com/back")] }
          "https://commerce.adobe.com/checkout?rUrl=https%3A%2F%2Fexpress.adobe.com%2Fsp%2F"
          "us" "en" = some r
      ∧ r.searchParams.get "rUrl" = some "https://example.com/back" :=
  have hs : (buildUrlObject referenceBrowser
      { plainPage with searchParams := [("rUrl", "https://example.com/back")] }
      "https://commerce.adobe.com/checkout?rUrl=https%3A%2F%2Fexpress.adobe.com%2Fsp%2F"
      "us" "en").isSome = true := by decide
  ⟨_, (Option.some_get hs).symm,
    (buildUrl_rUrl_parameter referenceBrowser
      { plainPage with searchParams := [("rUrl", "https://example.com/back")] }
      "https://commerce.adobe.com/checkout?rUrl=https%3A%2F%2Fexpress.adobe.com%2Fsp%2F"
      "us" "en" redirectPlanUrl _ (by decide) (by decide) (Option.some_get hs).symm).2.1
      "https://example.com/back" (by decide) (by decide)⟩

/-! ## `formatPrice`: the currency display -/

theorem getCurrencyDisplay_code (c : String) :
    getCurrencyDisplay (.code c) =
      if c = "JPY" then "name"
      else if c = "SEK" ∨ c = "DKK" ∨ c = "NOK" then "code"
      else "symbol" := by
  unfold getCurrencyDisplay
  by_cases h1 : c = "JPY"
  · simp [h1]
  · by_cases h2 : c = "SEK" ∨ c = "DKK" ∨ c = "NOK"
    · rcases h2 with h | h | h <;> subst h <;> decide
    · have h3 : ¬ (c = "SEK") := fun h => h2 (Or.inl h)
      have h4 : ¬ (c = "DKK") := fun h => h2 (Or.inr (Or.inl h))
      have h5 : ¬ (c = "NOK") := fun h => h2 (Or.inr (Or.inr h))
      simp [h1, h3, h4, h5]

/-- C11: for every currency code, the currency display that `formatPrice`
hands to the number formatter is the value of `getCurrencyDisplay`, which is
`name` exactly when the currency is `JPY`, `code` exactly when it is one of
`SEK`, `DKK`, `NOK`, and `symbol` exactly when it is none of the four, as
for `USD`; it is always one of the three, and never two of them. -/
theorem formatPrice_currency_display (c : String) :
    (getCurrencyDisplay (.code c) = "name" ↔ c = "JPY")
      ∧ (getCurrencyDisplay (.code c) = "code" ↔ c = "SEK" ∨ c = "DKK" ∨ c = "NOK")
      ∧ (getCurrencyDisplay (.code c) = "symbol" ↔
          c ≠ "JPY" ∧ c ≠ "SEK" ∧ c ≠ "DKK" ∧ c ≠ "NOK")
      ∧ getCurrencyDisplay (.code "USD") = "symbol"
      ∧ (getCurrencyDisplay (.code c) = "name" ∨ getCurrencyDisplay (.code c) = "code"
          ∨ getCurrencyDisplay (.code c) = "symbol")
      ∧ ¬ (getCurrencyDisplay (.code c) = "name" ∧ getCurrencyDisplay (.code c) = "code")
      ∧ ¬ (getCurrencyDisplay (.code c) = "name" ∧ getCurrencyDisplay (.code c) = "symbol")
      ∧ ¬ (getCurrencyDisplay (.code c) = "code" ∧ getCurrencyDisplay (.code c) = "symbol")
      ∧ ∀ (B : Browser) (pg : Page) (price : String),
          formatPrice B pg price (.code c) =
            (intlNumberFormat B
              (if c = "USD" ∨ c = "TWD" then "en-GB" else pg.getLanguage (getCountry pg))
              (.code c) (getCurrencyDisplay (.code c)) price).map
              (fun f => replace (replace f "SAR" "SR") "CA" "CAD") := by
  have hd := getCurrencyDisplay_code c
  have hfmt : ∀ (B : Browser) (pg : Page) (price : String),
      formatPrice B pg price (.code c) =
        (intlNumberFormat B
          (if c = "USD" ∨ c = "TWD" then "en-GB" else pg.getLanguage (getCountry pg))
          (.code c) (getCurrencyDisplay (.code c)) price).map
          (fun f => replace (replace f "SAR" "SR") "CA" "CAD") := by
    intro B pg price
    unfold formatPrice
    have hloc : (if [CurrencyValue.code "USD", .code "TWD"].contains (CurrencyValue.code c)
          = true then "en-GB" else pg.getLanguage (getCountry pg))
        = (if c = "USD" ∨ c = "TWD" then "en-GB" else pg.getLanguage (getCountry pg)) := by
      by_cases h1 : c = "USD"
      · subst h1; rfl
      · by_cases h2 : c = "TWD"
        · subst h2; rfl
        · simp [h1, h2]
    simp only [hloc]
    cases intlNumberFormat B
      (if c = "USD" ∨ c = "TWD" then "en-GB" else pg.getLanguage (getCountry pg))
      (.code c) (getCurrencyDisplay (.code c)) price <;> rfl
  by_cases h1 : c = "JPY"
  · subst h1
    refine ⟨by decide, by decide, by decide, by decide, by decide, by decide, by decide,
      by decide, hfmt⟩
  · by_cases h2 : c = "SEK" ∨ c = "DKK" ∨ c = "NOK"
    · have hv : getCurrencyDisplay (.code c) = "code" := by rw [hd, if_neg h1, if_pos h2]
      rw [hv]
      refine ⟨⟨fun h => absurd h (by decide), fun h => absurd h h1⟩,
        ⟨fun _ => h2, fun _ => rfl⟩,
        ⟨fun h => absurd h (by decide), fun h => ?_⟩,
        by decide, Or.inr (Or.inl rfl), by decide, by decide, by decide, ?_⟩
      · rcases h2 with h' | h' | h'
        · exact absurd h' h.2.1
        · exact absurd h' h.2.2.1
        · exact absurd h' h.2.2.2
      · intro B pg price
        rw [hfmt B pg price, hv]
    · have hv : getCurrencyDisplay (.code c) = "symbol" := by rw [hd, if_neg h1, if_neg h2]
      rw [hv]
      refine ⟨⟨fun h => absurd h (by decide), fun h => absurd h h1⟩,
        ⟨fun h => absurd h (by decide), fun h => absurd h h2⟩,
        ⟨fun _ => ⟨h1, fun h => h2 (Or.inl h), fun h => h2 (Or.inr (Or.inl h)),
          fun h => h2 (Or.inr (Or.inr h))⟩, fun _ => rfl⟩,
        by decide, Or.inr (Or.inr rfl), by decide, by decide, by decide, ?_⟩
      intro B pg price
      rw [hfmt B pg price, hv]

end Pricing
